import Mathlib

/-!
# Verification of the PyARL decoder (`pyarl/read_arl.py`)

A shallow embedding of the ARL-archive decoder into Lean.  The byte source
(Python file handle) is modelled as a `List ℕ` of byte values; Python's
`fhandle.read(n)` is `take`/`drop` (returning fewer bytes at end of file,
exactly like Python).  Python floats that arise from header text are modelled
as exact rationals `ℚ`; the float value `nan` (which can only enter the data
decoder through a numpy array cell that was never written) is modelled by the
`Option ℚ` value `none`, with the arithmetic propagating it the way IEEE
`nan` propagates.  Python exceptions are modelled by the `Except` monad with
an explicit error type recording the exception class that the interpreter
would raise.
-/

/-- The Python exception classes that the decoder can raise.  The module
defines a single exception class `ARLFormatException`; everything else is a
builtin (`ValueError`, `TypeError`, `KeyError`, `IndexError`).  `hang` is not
an exception: it marks the one place the source can fail to terminate (the
zero-padding scan, when the rest of the file is all zero bytes). -/
inductive PErr where
  | valueError (msg : String)
  | typeError (msg : String)
  | arlFormat (msg : String)
  | keyError (key : String)
  | indexError (msg : String)
  | hang
deriving DecidableEq, Repr

/-- The exception class of an error, forgetting the message: two errors with
the same class are instances of the same Python exception type. -/
inductive EClass where
  | arlFormatException
  | valueError
  | typeError
  | keyError
  | indexError
  | hang
deriving DecidableEq, Repr

/-- Which Python exception class a raised error belongs to. -/
def errClass : PErr → EClass
  | .valueError _ => .valueError
  | .typeError _ => .typeError
  | .arlFormat _ => .arlFormatException
  | .keyError _ => .keyError
  | .indexError _ => .indexError
  | .hang => .hang

/-- `true` iff an `Except` computation returned normally. -/
def exOk {ε α : Type} : Except ε α → Bool
  | .ok _ => true
  | .error _ => false

/-- A Python value stored in a header dictionary: the converters in the
format tables produce `int`, `float` or `str` values; `bytes` holds raw
undecoded bytes (either the `_do_nothing` converter's result or the raw
bytes recorded by the diagnostic `allow_failed_conversions` mode). -/
inductive PyVal where
  | int (i : ℤ)
  | float (q : ℚ)
  | str (s : String)
  | bytes (b : List ℕ)
deriving DecidableEq, Repr

/-- A Python `dict` with string keys, modelled as an association list in
insertion order (Python dicts preserve insertion order). -/
abbrev PyDict := List (String × PyVal)

/-- Association-list update with Python `d[k] = v` semantics: an existing
key keeps its position and gets the new value, a new key is appended. -/
def alSet {κ α : Type} [DecidableEq κ] : List (κ × α) → κ → α → List (κ × α)
  | [], k, v => [(k, v)]
  | (k', v') :: rest, k, v =>
      if k' = k then (k, v) :: rest else (k', v') :: alSet rest k v

/-- Association-list lookup, Python `d.get(k)`. -/
def alGet? {κ α : Type} [DecidableEq κ] : List (κ × α) → κ → Option α
  | [], _ => none
  | (k', v') :: rest, k => if k' = k then some v' else alGet? rest k

/-- Python `d[k]` where the use site needs an `int` (raises `KeyError` when
the key is absent, `TypeError` downstream when the value is not a number). -/
def getInt (d : PyDict) (k : String) : Except PErr ℤ :=
  match alGet? d k with
  | none => .error (.keyError k)
  | some (.int i) => .ok i
  | some _ => .error (.typeError "an integer is required")

/-- Python `d[k]` where the use site does float arithmetic with the value
(an `int` value would also work in Python, so it is accepted and cast). -/
def getNum (d : PyDict) (k : String) : Except PErr ℚ :=
  match alGet? d k with
  | none => .error (.keyError k)
  | some (.int i) => .ok (i : ℚ)
  | some (.float q) => .ok q
  | some _ => .error (.typeError "a number is required")

/-- Python `d[k]` where the use site needs a `str` (a dictionary key). -/
def getStr (d : PyDict) (k : String) : Except PErr String :=
  match alGet? d k with
  | none => .error (.keyError k)
  | some (.str s) => .ok s
  | some _ => .error (.typeError "a str is required")

/-- `true` for the raw-bytes values that only the diagnostic
`allow_failed_conversions` fallback (or the `_do_nothing` converter) can
produce. -/
def isBytesVal : PyVal → Bool
  | .bytes _ => true
  | _ => false

/-- A header dictionary none of whose values are raw undecoded bytes. -/
def dictNoBytes (d : PyDict) : Bool :=
  d.all fun p => ! isBytesVal p.2

/-- ASCII bytes of a Lean string literal, for building archive images. -/
def sBytes (s : String) : List ℕ :=
  s.toList.map Char.toNat

/-- ASCII decimal digit test on a byte value. -/
def isDigitByte (b : ℕ) : Bool :=
  48 ≤ b && b ≤ 57

/-- ASCII whitespace test on a byte value (the characters Python's numeric
constructors strip from both ends). -/
def isSpaceByte (b : ℕ) : Bool :=
  b = 32 || b = 9 || b = 10 || b = 13 || b = 11 || b = 12

/-- The natural number denoted by a list of ASCII digit bytes. -/
def digitsToNat : List ℕ → ℕ → ℕ
  | [], acc => acc
  | b :: rest, acc => digitsToNat rest (acc * 10 + (b - 48))

/-- Strip ASCII whitespace from both ends of a byte string. -/
def stripBytes (bs : List ℕ) : List ℕ :=
  ((bs.dropWhile isSpaceByte).reverse.dropWhile isSpaceByte).reverse

/-- Split a leading optional sign, returning the sign as a rational ±1. -/
def splitSign : List ℕ → ℚ × List ℕ
  | 43 :: rest => (1, rest)
  | 45 :: rest => (-1, rest)
  | bs => (1, bs)

/-- Python `int(b)` on a bytes string: strip whitespace, optional sign, then
a non-empty run of decimal digits; anything else raises `ValueError`.
(The underscore-separator and non-ASCII-digit forms Python also accepts do
not occur in this format and are not modelled.) -/
def pyIntOfBytes (bs : List ℕ) : Except PErr ℤ :=
  let s := stripBytes bs
  let (sign, ds) := splitSign s
  if ds ≠ [] ∧ ds.all isDigitByte then
    .ok (if sign = 1 then (digitsToNat ds 0 : ℤ) else -(digitsToNat ds 0 : ℤ))
  else
    .error (.valueError "invalid literal for int with base 10")

/-- Parse `digits [. digits]` into (numerator, number of fraction digits);
`none` when the shape is not a valid float mantissa. -/
def parseMantissa (bs : List ℕ) : Option (ℕ × ℕ) :=
  let ipart := bs.takeWhile isDigitByte
  let rest := bs.dropWhile isDigitByte
  match rest with
  | [] => if ipart = [] then none else some (digitsToNat ipart 0, 0)
  | 46 :: frac =>
      if frac.all isDigitByte ∧ (ipart ≠ [] ∨ frac ≠ []) then
        some (digitsToNat (ipart ++ frac) 0, frac.length)
      else none
  | _ => none

/-- Split a float literal at the `e`/`E` marker, if present. -/
def splitExponent : List ℕ → List ℕ × Option (List ℕ)
  | [] => ([], none)
  | b :: rest =>
      if b = 101 ∨ b = 69 then ([], some rest)
      else
        let (m, e) := splitExponent rest
        (b :: m, e)

/-- Python `float(b)` on a bytes string, modelled for the decimal-literal
forms (`[ws] [sign] digits [. digits] [(e|E) [sign] digits] [ws]`) that ARL
headers contain; the `inf`/`nan` spellings are not modelled.  Failure is
`ValueError`, as in Python. -/
def pyFloatOfBytes (bs : List ℕ) : Except PErr ℚ :=
  let s := stripBytes bs
  let (sign, body) := splitSign s
  let (mant, expPart) := splitExponent body
  let failv : Except PErr ℚ := .error (.valueError "could not convert string to float")
  match parseMantissa mant with
  | none => failv
  | some (num, fdigits) =>
      match expPart with
      | none => .ok (sign * (num : ℚ) / (10 : ℚ) ^ fdigits)
      | some ebs =>
          let (esign, eds) := splitSign ebs
          if eds ≠ [] ∧ eds.all isDigitByte then
            let e : ℤ :=
              if esign = 1 then (digitsToNat eds 0 : ℤ) else -(digitsToNat eds 0 : ℤ)
            .ok (sign * (num : ℚ) / (10 : ℚ) ^ fdigits * (10 : ℚ) ^ e)
          else failv

/-- `_decode_bytes`: decode an ASCII bytes string to a `str`; a byte outside
the ASCII range raises `UnicodeDecodeError`, which is a subclass of
`ValueError` (so the strict-mode `except ValueError` handler would see it). -/
def pyDecodeAscii (bs : List ℕ) : Except PErr String :=
  if bs.all (· < 128) then
    .ok (String.mk (bs.map Char.ofNat))
  else
    .error (.valueError "ascii codec can not decode byte")

/-- The converter functions that appear in the format tables
(`int`, `float`, `_decode_bytes`, `_do_nothing`). -/
inductive Conv where
  | toInt
  | toFloat
  | decodeBytes
  | doNothing
deriving DecidableEq, Repr

/-- Apply a converter to the raw bytes of a field.  `_do_nothing` returns
the bytes unaltered; the numeric and text converters can raise
`ValueError`. -/
def applyConv : Conv → List ℕ → Except PErr PyVal
  | .toInt, bs => (pyIntOfBytes bs).map .int
  | .toFloat, bs => (pyFloatOfBytes bs).map .float
  | .decodeBytes, bs => (pyDecodeAscii bs).map .str
  | .doNothing, bs => .ok (.bytes bs)

/-- One row of a format table: optional output key, byte width, converter.
A `none` key means the bytes are read but discarded. -/
abbrev FmtEntry := Option String × ℕ × Conv

/-- `_record_header_format`: the 50-byte record header layout. -/
def _record_header_format : List FmtEntry :=
  [ (some "year", 2, .toInt),
    (some "month", 2, .toInt),
    (some "day", 2, .toInt),
    (some "hour", 2, .toInt),
    (none, 2, .toInt),
    (none, 2, .toInt),
    (none, 2, .toInt),
    (some "kvar", 4, .decodeBytes),
    (some "scale_exp", 4, .toInt),
    (some "precision", 14, .toFloat),
    (some "initial_value", 14, .toFloat) ]

/-- `_grid_header_format`: the 108-byte index/grid header layout. -/
def _grid_header_format : List FmtEntry :=
  [ (some "data_source", 4, .decodeBytes),
    (some "forecast_hour", 3, .toInt),
    (some "data_minutes", 2, .toInt),
    (some "pole_lat", 7, .toFloat),
    (some "pole_lon", 7, .toFloat),
    (some "tangent_lat", 7, .toFloat),
    (some "tangent_lon", 7, .toFloat),
    (some "grid_size", 7, .toFloat),
    (some "orientation", 7, .toFloat),
    (some "cone_angle", 7, .toFloat),
    (some "xsync_point", 7, .toFloat),
    (some "ysync_point", 7, .toFloat),
    (some "sync_point_lat", 7, .toFloat),
    (some "sync_point_lon", 7, .toFloat),
    (none, 7, .doNothing),
    (some "n_x_points", 3, .toInt),
    (some "n_y_points", 3, .toInt),
    (some "n_levels", 3, .toInt),
    (some "vertical_coord_sys_flag", 2, .toInt),
    (some "index_record_length", 4, .toInt) ]

/-- `_level_header_format`: one level's 8-byte header prefix. -/
def _level_header_format : List FmtEntry :=
  [ (some "level_height", 6, .toFloat),
    (some "n_var_at_level", 2, .toInt) ]

/-- `_variable_header_format`: one variable's 8-byte catalog entry. -/
def _variable_header_format : List FmtEntry :=
  [ (some "variable_name", 4, .decodeBytes),
    (some "checksum", 3, .toInt),
    (none, 1, .doNothing) ]

/-- The message of the `ARLFormatException` raised when a format table asks
to read more bytes than the header's declared total. -/
def overflowMsg : String :=
  "The number of bytes to read defined in the format dictionary exceeded the total number of bytes allowed to read"

/-- The loop body of `_read_header_info` over the format-table rows.  For
each row, the field's bytes are read first; then, when a total width was
declared, the remaining allowance is decremented and checked (raising
`ARLFormatException` when it goes negative); only then is the converter run
(skipped for `none` keys).  A conversion `ValueError` is re-raised in strict
mode, or recorded as the raw bytes when `allow_failed` is set.
Returns the dictionary, the unspent allowance and the unread tail. -/
def headerLoop (allow_failed : Bool) :
    List FmtEntry → Option ℤ → PyDict → List ℕ →
      Except PErr (PyDict × Option ℤ × List ℕ)
  | [], tot, d, bs => .ok (d, tot, bs)
  | (key, n, conv) :: rest, tot, d, bs =>
      let raw := bs.take n
      let bs' := bs.drop n
      match tot with
      | some t =>
          if t - n < 0 then .error (.arlFormat overflowMsg)
          else
            match key with
            | none => headerLoop allow_failed rest (some (t - n)) d bs'
            | some k =>
                match applyConv conv raw with
                | .ok v => headerLoop allow_failed rest (some (t - n)) (alSet d k v) bs'
                | .error e =>
                    if allow_failed ∧ errClass e = .valueError then
                      headerLoop allow_failed rest (some (t - n)) (alSet d k (.bytes raw)) bs'
                    else .error e
      | none =>
          match key with
          | none => headerLoop allow_failed rest none d bs'
          | some k =>
              match applyConv conv raw with
              | .ok v => headerLoop allow_failed rest none (alSet d k v) bs'
              | .error e =>
                  if allow_failed ∧ errClass e = .valueError then
                    headerLoop allow_failed rest none (alSet d k (.bytes raw)) bs'
                  else .error e

/-- `_read_header_info`: run the format table over the byte source, then,
when a total width was declared, read and discard the unspent allowance so
the cursor ends at the header boundary. -/
def _read_header_info (format_spec : List FmtEntry) (nbytes_total : Option ℤ)
    (allow_failed_conversions : Bool) (bs : List ℕ) :
    Except PErr (PyDict × List ℕ) :=
  match headerLoop allow_failed_conversions format_spec nbytes_total [] bs with
  | .error e => .error e
  | .ok (d, none, bs') => .ok (d, bs')
  | .ok (d, some t, bs') => .ok (d, bs'.drop t.toNat)

/-- `_read_record_header`: the 50-byte record header (strict mode; the
function exposes no `allow_failed_conversions` parameter). -/
def _read_record_header (bs : List ℕ) : Except PErr (PyDict × List ℕ) :=
  _read_header_info _record_header_format (some 50) false bs

/-- `_read_grid_header`: the 108-byte grid header; this is the only header
parser that exposes `allow_failed_conversions`, defaulting to `false`. -/
def _read_grid_header (bs : List ℕ) (allow_failed_conversions : Bool := false) :
    Except PErr (PyDict × List ℕ) :=
  _read_header_info _grid_header_format (some 108) allow_failed_conversions bs

/-- `_read_level_header`: a level's 8-byte header prefix (no declared total,
no diagnostic flag). -/
def _read_level_header (bs : List ℕ) : Except PErr (PyDict × List ℕ) :=
  _read_header_info _level_header_format none false bs

/-- `_read_variable_header`: one variable catalog entry (no declared total,
no diagnostic flag). -/
def _read_variable_header (bs : List ℕ) : Except PErr (PyDict × List ℕ) :=
  _read_header_info _variable_header_format none false bs

/-- One level of the catalog: the level's header dictionary and its list of
variable dictionaries (Python stores the list under the `variables` key of
the same dictionary; it is kept as a separate field here because the values
of `PyDict` are scalars). -/
structure LevelInfo where
  hdr : PyDict
  vars : List PyDict
deriving DecidableEq, Repr

/-- The inner loop of `_read_level_info`: read `n` variable headers. -/
def varHdrLoop : ℕ → List ℕ → Except PErr (List PyDict × List ℕ)
  | 0, bs => .ok ([], bs)
  | n + 1, bs =>
      match _read_variable_header bs with
      | .error e => .error e
      | .ok (v, bs1) =>
          match varHdrLoop n bs1 with
          | .error e => .error e
          | .ok (vs, bs2) => .ok (v :: vs, bs2)

/-- The outer loop of `_read_level_info`: for each level, read the level
header, fetch `n_var_at_level`, and read that many variable headers. -/
def levelHdrLoop : ℕ → List ℕ → Except PErr (List LevelInfo × List ℕ)
  | 0, bs => .ok ([], bs)
  | n + 1, bs =>
      match _read_level_header bs with
      | .error e => .error e
      | .ok (hdr, bs1) =>
          match getInt hdr "n_var_at_level" with
          | .error e => .error e
          | .ok nvars =>
              match varHdrLoop nvars.toNat bs1 with
              | .error e => .error e
              | .ok (vars, bs2) =>
                  match levelHdrLoop n bs2 with
                  | .error e => .error e
                  | .ok (rest, bs3) => .ok (⟨hdr, vars⟩ :: rest, bs3)

/-- `_read_level_info`: the level/variable catalog, driven by the grid
header's `n_levels` (Python's `range(nlevels)` is empty for a negative
count, hence `toNat`). -/
def _read_level_info (bs : List ℕ) (nlevels : ℤ) :
    Except PErr (List LevelInfo × List ℕ) :=
  levelHdrLoop nlevels.toNat bs

/-- The message of the `ARLFormatException` raised for a non-`INDX` format
tag (paraphrasing the source's old-style-file message). -/
def oldStyleMsg : String :=
  "This appears to be an old-style file. These are not supported."

/-- `_read_arl_header`: read the initial record header, check the `INDX`
format tag, then the grid header and the level/variable catalog. -/
def _read_arl_header (bs : List ℕ) :
    Except PErr ((PyDict × PyDict × List LevelInfo) × List ℕ) :=
  match _read_record_header bs with
  | .error e => .error e
  | .ok (file_hdr, bs1) =>
      match alGet? file_hdr "kvar" with
      | none => .error (.keyError "kvar")
      | some v =>
          if v = PyVal.str "INDX" then
            match _read_grid_header bs1 with
            | .error e => .error e
            | .ok (grid_hdr, bs2) =>
                match getInt grid_hdr "n_levels" with
                | .error e => .error e
                | .ok nlev =>
                    match _read_level_info bs2 nlev with
                    | .error e => .error e
                    | .ok (level_hdrs, bs3) =>
                        .ok ((file_hdr, grid_hdr, level_hdrs), bs3)
          else .error (.arlFormat oldStyleMsg)

/-- `_advance_to_first_var`: scan single bytes until the first non-zero one,
then seek back one byte so the cursor sits exactly on it.  Python's
`int.from_bytes(b"", ...) = 0` means the loop never ends once the source is
exhausted, which the `none` result records (the call hangs). -/
def _advance_to_first_var : List ℕ → Option (List ℕ)
  | [] => none
  | b :: rest => if b = 0 then _advance_to_first_var rest else some (b :: rest)

/-- Python `int.from_bytes(fhandle.read(1), endian)`: one byte read from the
source; at end of file `read(1)` returns the empty bytes string and
`int.from_bytes` of it is `0`.  (For a single byte the endianness argument
is irrelevant, so it is not modelled.) -/
def readByte : List ℕ → ℕ × List ℕ
  | [] => (0, [])
  | b :: rest => (b, rest)

/-- The precision clamp at the end of `_read_next_value`: a value whose
magnitude is strictly below the precision becomes exactly `0.0`.  `none`
models float `nan`, for which `abs(val) < precision` is `False`, so `nan`
passes through unclamped. -/
def clampPrec (precision : ℚ) : Option ℚ → Option ℚ
  | none => none
  | some v => if |v| < precision then some 0 else some v

/-- `_read_next_value`: unpack the next packed value.  In 8-bit mode the
value is `(byte - 127) / 2^(7 - scale_exp) + last_value`; in 16-bit mode two
separate unsigned single-byte reads are combined as `byte2 * 256 + byte1`
and the value is `(raw - 32767) / 2^(15 - scale_exp) + last_value`; then the
precision clamp is applied.  `last_value = none` models a `nan` previous
value, which propagates. -/
def _read_next_value (is_16bit : Bool) (last_value : Option ℚ) (precision : ℚ)
    (scale_exp : ℤ) (bs : List ℕ) : Option ℚ × List ℕ :=
  let (val, bs') :=
    if is_16bit then
      let (byte1, r1) := readByte bs
      let (byte2, r2) := readByte r1
      let scale : ℚ := (2 : ℚ) ^ ((15 : ℤ) - scale_exp)
      (last_value.map fun l => (((byte2 * 256 + byte1 : ℕ) : ℚ) - 32767) / scale + l, r2)
    else
      let (b, r) := readByte bs
      let scale : ℚ := (2 : ℚ) ^ ((7 : ℤ) - scale_exp)
      (last_value.map fun l => ((b : ℕ) - 127 : ℚ) / scale + l, r)
  (clampPrec precision val, bs')

/-- A numpy `float64` array of shape `(shape0, shape1, shape2)`.  Cells are
kept as an association list from index triples to values; an index absent
from the list holds the `nan` fill, and a stored `none` is a written `nan`
(`Option ℚ` with `none = nan`, as elsewhere). -/
structure NpArray where
  shape0 : ℕ
  shape1 : ℕ
  shape2 : ℕ
  cells : List ((ℕ × ℕ × ℕ) × Option ℚ)
deriving DecidableEq, Repr

/-- `np.full((nx, ny, nz), np.nan)`: numpy raises `ValueError` for a
negative dimension; otherwise every cell holds `nan`. -/
def npFull (nx ny nz : ℤ) : Except PErr NpArray :=
  if nx < 0 ∨ ny < 0 ∨ nz < 0 then
    .error (.valueError "negative dimensions are not allowed")
  else
    .ok ⟨nx.toNat, ny.toNat, nz.toNat, []⟩

/-- `arr[i, j, k]` read: `IndexError` out of bounds, else the stored value
(`none` = `nan`, also for a never-written cell). -/
def npGet (a : NpArray) (i j k : ℕ) : Except PErr (Option ℚ) :=
  if i < a.shape0 ∧ j < a.shape1 ∧ k < a.shape2 then
    .ok ((alGet? a.cells (i, j, k)).getD none)
  else
    .error (.indexError "index out of bounds")

/-- `arr[i, j, k] = v` write: `IndexError` out of bounds, else the cell is
updated in place. -/
def npSet (a : NpArray) (i j k : ℕ) (v : Option ℚ) : Except PErr NpArray :=
  if i < a.shape0 ∧ j < a.shape1 ∧ k < a.shape2 then
    .ok { a with cells := alSet a.cells (i, j, k) v }
  else
    .error (.indexError "index out of bounds")

/-- One pass of `_make_empty_arrays_for_vars` over a level's variable list:
`var_dims[name] = zdim` for each catalog entry (the same constant `zdim`
for the whole pass: `1` for level 0, `n_levels` for the last level). -/
def dimsLoop (zdim : ℤ) : List PyDict → List (String × ℤ) →
    Except PErr (List (String × ℤ))
  | [], d => .ok d
  | v :: vs, d =>
      match getStr v "variable_name" with
      | .error e => .error e
      | .ok name => dimsLoop zdim vs (alSet d name zdim)

/-- The final pass of `_make_empty_arrays_for_vars`: one `nan`-filled array
per resolved name, in `var_dims` insertion order. -/
def arraysLoop (nx ny : ℤ) : List (String × ℤ) → List (String × NpArray) →
    Except PErr (List (String × NpArray))
  | [], arrs => .ok arrs
  | (name, zdim) :: rest, arrs =>
      match npFull nx ny zdim with
      | .error e => .error e
      | .ok a => arraysLoop nx ny rest (alSet arrs name a)

/-- `_make_empty_arrays_for_vars`: variables catalogued at level 0 get
vertical extent 1, then variables catalogued at the last level get extent
`n_levels` (overwriting the first assignment when a name appears in both);
each resolved name gets a `nan`-filled `(nx, ny, extent)` array.
`level_headers[0]` on an empty catalog raises `IndexError`. -/
def _make_empty_arrays_for_vars (level_headers : List LevelInfo)
    (nx ny n_levels : ℤ) : Except PErr (List (String × NpArray)) :=
  match level_headers with
  | [] => .error (.indexError "list index out of range")
  | lh0 :: rest =>
      match dimsLoop 1 lh0.vars [] with
      | .error e => .error e
      | .ok dims0 =>
          match dimsLoop n_levels ((lh0 :: rest).getLastD lh0).vars dims0 with
          | .error e => .error e
          | .ok dims => arraysLoop nx ny dims []

/-- `k = klev if klev == 0 else klev - 1`: the destination z-index for level
index `klev` in `_read_data`. -/
def kOf (klev : ℕ) : ℕ :=
  if klev = 0 then klev else klev - 1

/-- The inner x-loop of `_read_data` over the index list
`List.range shape0`: decode one value per column, store it at `(i, j, k)`,
and carry it as the previous value for the next column. -/
def cellsLoop (is16 : Bool) (prec : ℚ) (sexp : ℤ) (j k : ℕ) :
    List ℕ → NpArray → Option ℚ → List ℕ →
      Except PErr (NpArray × Option ℚ × List ℕ)
  | [], arr, last, bs => .ok (arr, last, bs)
  | i :: is, arr, last, bs =>
      let (v, bs') := _read_next_value is16 last prec sexp bs
      match npSet arr i j k v with
      | .error e => .error e
      | .ok arr' => cellsLoop is16 prec sexp j k is arr' v bs'

/-- The y-loop of `_read_data`: after each full row of x the previous value
is re-read from `var_arr[0, j, k]` (the row's first column), not carried
from the row's last column. -/
def rowsLoop (is16 : Bool) (prec : ℚ) (sexp : ℤ) (k : ℕ) :
    List ℕ → NpArray → Option ℚ → List ℕ →
      Except PErr (NpArray × Option ℚ × List ℕ)
  | [], arr, last, bs => .ok (arr, last, bs)
  | j :: js, arr, last, bs =>
      match cellsLoop is16 prec sexp j k (List.range arr.shape0) arr last bs with
      | .error e => .error e
      | .ok (arr', _, bs') =>
          match npGet arr' 0 j k with
          | .error e => .error e
          | .ok v => rowsLoop is16 prec sexp k js arr' v bs'

/-- The per-record data loops of `_read_data` (lines following the header
extraction): previous value seeded with the record's `initial_value`, then
rows over `range(shape1)`. -/
def decodeVarData (is16 : Bool) (prec : ℚ) (sexp : ℤ) (q0 : ℚ) (k : ℕ)
    (arr : NpArray) (bs : List ℕ) : Except PErr (NpArray × List ℕ) :=
  match rowsLoop is16 prec sexp k (List.range arr.shape1) arr (some q0) bs with
  | .error e => .error e
  | .ok (arr', _, bs') => .ok (arr', bs')

/-- One (level, variable) record in `_read_data`: read the 50-byte record
header, append it to the audit list, look up the variable's array
(`KeyError` when it was never allocated), pull `initial_value`, `precision`
and `scale_exp` from the record header, and decode the packed block. -/
def decodeOneVar (is16 : Bool) (k : ℕ)
    (st : List (String × NpArray) × List PyDict × List ℕ) (var_entry : PyDict) :
    Except PErr (List (String × NpArray) × List PyDict × List ℕ) :=
  match st with
  | (arrays, recs, bs) =>
    match _read_record_header bs with
    | .error e => .error e
    | .ok (record_hdr, bs1) =>
        let recs' := recs ++ [record_hdr]
        match getStr var_entry "variable_name" with
        | .error e => .error e
        | .ok name =>
            match alGet? arrays name with
            | none => .error (.keyError name)
            | some var_arr =>
                match getNum record_hdr "initial_value" with
                | .error e => .error e
                | .ok q0 =>
                    match getNum record_hdr "precision" with
                    | .error e => .error e
                    | .ok prec =>
                        match getInt record_hdr "scale_exp" with
                        | .error e => .error e
                        | .ok sexp =>
                            match decodeVarData is16 prec sexp q0 k var_arr bs1 with
                            | .error e => .error e
                            | .ok (arr', bs2) =>
                                .ok (alSet arrays name arr', recs', bs2)

/-- The per-level variable loop of `_read_data`. -/
def varsLoop (is16 : Bool) (k : ℕ) : List PyDict →
    List (String × NpArray) × List PyDict × List ℕ →
      Except PErr (List (String × NpArray) × List PyDict × List ℕ)
  | [], st => .ok st
  | var_entry :: vs, st =>
      match decodeOneVar is16 k st var_entry with
      | .error e => .error e
      | .ok st' => varsLoop is16 k vs st'

/-- The `enumerate(level_headers)` loop of `_read_data`. -/
def levelsLoop (is16 : Bool) : List (ℕ × LevelInfo) →
    List (String × NpArray) × List PyDict × List ℕ →
      Except PErr (List (String × NpArray) × List PyDict × List ℕ)
  | [], st => .ok st
  | (klev, level) :: rest, st =>
      match varsLoop is16 (kOf klev) level.vars st with
      | .error e => .error e
      | .ok st' => levelsLoop is16 rest st'

/-- `_read_data`: decode every (level, variable) record, returning the
record-header audit list, the updated arrays (Python mutates them in
place), and the unread tail. -/
def _read_data (var_arrays : List (String × NpArray))
    (level_headers : List LevelInfo) (is16 : Bool) (bs : List ℕ) :
    Except PErr (List PyDict × List (String × NpArray) × List ℕ) :=
  match levelsLoop is16 level_headers.enum (var_arrays, [], bs) with
  | .error e => .error e
  | .ok (arrays, recs, bs') => .ok (recs, arrays, bs')

/-- Python `d += l` where `d` is a `dict` and `l` a `list`: `dict` defines
neither `__iadd__` nor `__add__`, so the statement raises `TypeError`
whatever the operands hold.  `read_arl` executes exactly this on the file
header dictionary. -/
def dictPlusList {α β : Type} (_d : α) (_l : List β) : Except PErr (List β) :=
  .error (.typeError "unsupported operand types for dict and list")

/-- The aggregate result documented by `read_arl`: variable arrays, the
record-header list (index header first), the grid header and the level
catalog. -/
structure ArlDocument where
  data : List (String × NpArray)
  record_hdr : List PyDict
  grid_hdr : PyDict
  level_hdrs : List LevelInfo
deriving DecidableEq, Repr

/-- `read_arl`: the public entry point.  Reads the initial headers, skips
the zero padding, allocates the arrays, decodes the data, then executes
`record_hdr += _read_data(...)` — where `record_hdr` is the file-header
dictionary, so the `+=` raises `TypeError` (see `dictPlusList`). -/
def read_arl (bs : List ℕ) : Except PErr ArlDocument :=
  match _read_arl_header bs with
  | .error e => .error e
  | .ok ((record_hdr, grid_hdr, level_hdrs), bs1) =>
      match _advance_to_first_var bs1 with
      | none => .error .hang
      | some bs2 =>
          match getInt grid_hdr "n_x_points" with
          | .error e => .error e
          | .ok nx =>
              match getInt grid_hdr "n_y_points" with
              | .error e => .error e
              | .ok ny =>
                  match getInt grid_hdr "n_levels" with
                  | .error e => .error e
                  | .ok nz =>
                      match _make_empty_arrays_for_vars level_hdrs nx ny nz with
                      | .error e => .error e
                      | .ok data =>
                          match _read_data data level_hdrs false bs2 with
                          | .error e => .error e
                          | .ok (recs, data', _) =>
                              match dictPlusList record_hdr recs with
                              | .error e => .error e
                              | .ok record_hdr_list =>
                                  .ok ⟨data', record_hdr_list, grid_hdr, level_hdrs⟩

/-- A 7-byte zero float field, `"    0.0"`, used to build the grid header. -/
def zf7 : String := "    0.0"

/-- The 50-byte file (index) header of the synthetic well-formed archive:
date `99/01/01 00`, three reserved fields, tag `INDX`, `scale_exp 0`,
`precision 0.0`, `initial_value 1.0`. -/
def sampleFileHdr : String :=
  "99010100" ++ "000000" ++ "INDX" ++ "   0" ++ "           0.0" ++ "           1.0"

/-- The 108-byte grid header of the synthetic archive: a 2 × 2 grid with one
atmospheric level. -/
def sampleGridHdr : String :=
  "TEST" ++ "  0" ++ " 0" ++ zf7 ++ zf7 ++ zf7 ++ zf7 ++ zf7 ++ zf7 ++ zf7 ++
    zf7 ++ zf7 ++ zf7 ++ zf7 ++ zf7 ++ "  2" ++ "  2" ++ "  1" ++ " 1" ++ "  50"

/-- The synthetic archive's single level header (height 0, one variable)
followed by the catalog entry for `TEMP`. -/
def sampleLevelBlock : String :=
  "   0.0" ++ " 1" ++ "TEMP" ++ "  0" ++ " "

/-- The 50-byte record header of the synthetic archive's one data record
(`TEMP`, `scale_exp 0`, `precision 0.0`, `initial_value 0.5`). -/
def sampleRecHdr : String :=
  "99010100" ++ "000000" ++ "TEMP" ++ "   0" ++ "           0.0" ++ "           0.5"

/-- The complete synthetic well-formed archive: headers, catalog, two zero
padding bytes, one record header and the four packed bytes of the 2 × 2
grid (230 bytes in all). -/
def sampleArl : List ℕ :=
  sBytes sampleFileHdr ++ sBytes sampleGridHdr ++ sBytes sampleLevelBlock ++
    [0, 0] ++ sBytes sampleRecHdr ++ [128, 200, 60, 128]

deriving instance DecidableEq for Except

/-- The variable names a level's catalog declares, in order (the value of
`variable_name` in each variable header; entries without a decoded string
name cannot arise from a successful parse and are skipped). -/
def catalogNames (vs : List PyDict) : List String :=
  vs.filterMap fun v =>
    match alGet? v "variable_name" with
    | some (PyVal.str s) => some s
    | _ => none

/-- Total number of bytes a format table asks to read. -/
def sumWidths (spec : List FmtEntry) : ℕ :=
  (spec.map fun e => e.2.1).sum

/-- `true` when every named field of the format table converts successfully
on the slice of the source it would be given (the reads that
`_read_header_info` performs). -/
def specConvOk : List FmtEntry → List ℕ → Bool
  | [], _ => true
  | (key, n, conv) :: rest, bs =>
      (match key with
       | none => true
       | some _ => exOk (applyConv conv (bs.take n))) && specConvOk rest (bs.drop n)

/-- The keys of an association list, in order. -/
def keysOf {κ α : Type} (l : List (κ × α)) : List κ :=
  l.map Prod.fst

/-- A 50-byte record header whose format tag is `ABCD` instead of `INDX`,
otherwise identical to the synthetic archive's file header. -/
def badTagHdr : String :=
  "99010100" ++ "000000" ++ "ABCD" ++ "   0" ++ "           0.0" ++ "           1.0"

/-- A format table asking for 6 bytes in total (2 named + 4 discarded), used
against a declared width of 5 to exercise the overflow check. -/
def overSpec : List FmtEntry :=
  [ (some "a", 2, .toInt), (none, 4, .doNothing) ]

/-- A catalog entry for a variable called `name`. -/
def varEntry (name : String) : PyDict :=
  [ ("variable_name", .str name), ("checksum", .int 0) ]

/-- A level-catalog entry holding the given variable entries. -/
def mkLevel (vs : List PyDict) : LevelInfo :=
  ⟨[("level_height", .float 0), ("n_var_at_level", .int (vs.length : ℤ))], vs⟩

/-- A two-level catalog in which `ABCD` appears in both the first and the
last level — the conflicting-extent case of the spec. -/
def conflictLevels : List LevelInfo :=
  [ mkLevel [varEntry "ABCD"], mkLevel [varEntry "ABCD"] ]

/-- A three-level catalog: `AAAA` in the first and last levels, `BBBB` only
in the middle level (so in neither the first nor the last catalog). -/
def middleOnlyLevels : List LevelInfo :=
  [ mkLevel [varEntry "AAAA"], mkLevel [varEntry "BBBB"], mkLevel [varEntry "AAAA"] ]

/-- A two-level catalog with `PRSS` only at the surface level and `TEMP`
only at the last level. -/
def splitLevels : List LevelInfo :=
  [ mkLevel [varEntry "PRSS"], mkLevel [varEntry "TEMP"] ]

/-- The level catalog of the synthetic archive (one level, one variable). -/
def sampleLevels : List LevelInfo :=
  [⟨[("level_height", PyVal.float 0), ("n_var_at_level", PyVal.int 1)],
    [[("variable_name", PyVal.str "TEMP"), ("checksum", PyVal.int 0)]]⟩]

/-- A single-field format table (2 named bytes under a 5-byte declared
total), for checking the cursor-alignment discard. -/
def alignSpec : List FmtEntry :=
  [ (some "a", 2, .toInt) ]

/-- A fresh 2 × 2 × 1 array, as allocated for a surface variable on the
synthetic grid. -/
def rowArr : NpArray := ⟨2, 2, 1, []⟩

/-- `rowArr` after decoding its first row from bytes `[128, 130]` with
`scale_exp 0`, `precision 0` and previous value `1`. -/
def rowArr1 : NpArray :=
  ⟨2, 2, 1, [((0, 0, 0), some (129 / 128)), ((1, 0, 0), some (33 / 32))]⟩

/-- Check that a header-parse outcome recorded no raw-bytes fallback values
(vacuously true for an exception outcome). -/
def hdrNoBytes (e : Except PErr (PyDict × List ℕ)) : Bool :=
  match e with
  | .ok (d, _) => dictNoBytes d
  | .error _ => true

/-- Check that a whole header-phase outcome recorded no raw-bytes fallback
values anywhere: file header, grid header, every level header and every
variable header. -/
def headerPhaseNoBytes
    (e : Except PErr ((PyDict × PyDict × List LevelInfo) × List ℕ)) : Bool :=
  match e with
  | .ok ((fh, gh, lhs), _) =>
      dictNoBytes fh && dictNoBytes gh &&
        lhs.all fun li => dictNoBytes li.hdr && li.vars.all dictNoBytes
  | .error _ => true

/- ------------------------------------------------------------------ -/
/- Theorems.                                                           -/
/- ------------------------------------------------------------------ -/

theorem exOk_eq_true {ε α : Type} {e : Except ε α} (h : exOk e = true) :
    ∃ a, e = .ok a := by
  cases e with
  | ok a => exact ⟨a, rfl⟩
  | error _ => simp [exOk] at h

theorem alGet_alSet_self {κ α : Type} [DecidableEq κ] (l : List (κ × α)) (k : κ) (v : α) :
    alGet? (alSet l k v) k = some v := by
  induction l with
  | nil => simp [alSet, alGet?]
  | cons p rest ih =>
      obtain ⟨k', v'⟩ := p
      by_cases h : k' = k
      · simp [alSet, alGet?, h]
      · simp [alSet, alGet?, h, ih]

theorem alGet_alSet_ne {κ α : Type} [DecidableEq κ] (l : List (κ × α)) (k k' : κ) (v : α)
    (h : k' ≠ k) : alGet? (alSet l k v) k' = alGet? l k' := by
  induction l with
  | nil => simp [alSet, alGet?, Ne.symm h]
  | cons p rest ih =>
      obtain ⟨k0, v0⟩ := p
      by_cases h0 : k0 = k
      · subst h0
        simp [alSet, alGet?, Ne.symm h]
      · simp [alSet, alGet?, h0, ih]

theorem npSet_ok_elim {a : NpArray} {i j k : ℕ} {v : Option ℚ} {a' : NpArray}
    (h : npSet a i j k v = .ok a') :
    (i < a.shape0 ∧ j < a.shape1 ∧ k < a.shape2) ∧
      a' = { a with cells := alSet a.cells (i, j, k) v } := by
  by_cases hb : i < a.shape0 ∧ j < a.shape1 ∧ k < a.shape2
  · refine ⟨hb, ?_⟩
    simp [npSet, hb] at h
    exact h.symm
  · simp [npSet, hb] at h

theorem npGet_npSet_self {a : NpArray} {i j k : ℕ} {v : Option ℚ} {a' : NpArray}
    (h : npSet a i j k v = .ok a') : npGet a' i j k = .ok v := by
  obtain ⟨hb, rfl⟩ := npSet_ok_elim h
  simp [npGet, hb, alGet_alSet_self]

theorem npGet_npSet_ne {a : NpArray} {i j k : ℕ} {v : Option ℚ} {a' : NpArray}
    (h : npSet a i j k v = .ok a') {x y z : ℕ}
    (hne : (x, y, z) ≠ (i, j, k)) : npGet a' x y z = npGet a x y z := by
  obtain ⟨hb, rfl⟩ := npSet_ok_elim h
  simp [npGet, alGet_alSet_ne _ _ _ _ hne]

/-- C3: per-value reconstruction.  8-bit mode decodes
`(byte - 127) / 2^(7 - scale_exp) + previous`; 16-bit mode reads two
separate unsigned bytes, combines them as `byte2 * 256 + byte1` and decodes
`(raw - 32767) / 2^(15 - scale_exp) + previous`; the result is exactly `0`
when the pre-clamp magnitude is strictly below the precision and the
unclamped value otherwise (boundary exclusive: at magnitude = precision the
value is retained).  With `scale_exp = 0` and previous `0`, byte `127`
decodes to `0` and byte `128` to `1/2^7`; with precision `1/128` the byte
`128` value sits exactly on the boundary and is retained, while precision
`1/64` clamps it to `0`. -/
theorem read_next_value_formula_and_clamp :
    (∀ (p prec : ℚ) (s : ℤ) (b : ℕ) (rest : List ℕ),
      _read_next_value false (some p) prec s (b :: rest) =
        ((if |((b : ℚ) - 127) / (2 : ℚ) ^ ((7 : ℤ) - s) + p| < prec then some 0
          else some (((b : ℚ) - 127) / (2 : ℚ) ^ ((7 : ℤ) - s) + p)), rest)) ∧
    (∀ (p prec : ℚ) (s : ℤ) (b1 b2 : ℕ) (rest : List ℕ),
      _read_next_value true (some p) prec s (b1 :: b2 :: rest) =
        ((if |(((b2 * 256 + b1 : ℕ) : ℚ) - 32767) / (2 : ℚ) ^ ((15 : ℤ) - s) + p| < prec
            then some 0
          else some ((((b2 * 256 + b1 : ℕ) : ℚ) - 32767) / (2 : ℚ) ^ ((15 : ℤ) - s) + p)),
         rest)) ∧
    _read_next_value false (some 0) 0 0 [127] = (some 0, []) ∧
    _read_next_value false (some 0) 0 0 [128] = (some (1 / 2 ^ 7), []) ∧
    _read_next_value false (some 0) (1 / 128) 0 [128] = (some (1 / 128), []) ∧
    _read_next_value false (some 0) (1 / 64) 0 [128] = (some 0, []) := by
  have hA : ∀ (p prec : ℚ) (s : ℤ) (b : ℕ) (rest : List ℕ),
      _read_next_value false (some p) prec s (b :: rest) =
        ((if |((b : ℚ) - 127) / (2 : ℚ) ^ ((7 : ℤ) - s) + p| < prec then some 0
          else some (((b : ℚ) - 127) / (2 : ℚ) ^ ((7 : ℤ) - s) + p)), rest) := by
    intro p prec s b rest
    simp [_read_next_value, readByte, clampPrec]
  have hB : ∀ (p prec : ℚ) (s : ℤ) (b1 b2 : ℕ) (rest : List ℕ),
      _read_next_value true (some p) prec s (b1 :: b2 :: rest) =
        ((if |(((b2 * 256 + b1 : ℕ) : ℚ) - 32767) / (2 : ℚ) ^ ((15 : ℤ) - s) + p| < prec
            then some 0
          else some ((((b2 * 256 + b1 : ℕ) : ℚ) - 32767) / (2 : ℚ) ^ ((15 : ℤ) - s) + p)),
         rest) := by
    intro p prec s b1 b2 rest
    simp [_read_next_value, readByte, clampPrec]
  refine ⟨hA, hB, ?_, ?_, ?_, ?_⟩ <;> rw [hA] <;> norm_num <;>
    rw [abs_of_pos (by norm_num : (0 : ℚ) < 1 / 128)] <;> norm_num

/-- C9: the padding scan.  Whenever some byte at or after the cursor is
non-zero, `_advance_to_first_var` terminates, consumes exactly the run of
leading zero bytes, and leaves the cursor on the first non-zero byte. -/
theorem advance_stops_at_first_nonzero (bs : List ℕ) (h : ∃ b ∈ bs, b ≠ 0) :
    _advance_to_first_var bs = some (bs.dropWhile fun b => b == 0) ∧
    ∃ c cs, bs.dropWhile (fun b => b == 0) = c :: cs ∧ c ≠ 0 := by
  induction bs with
  | nil => simp at h
  | cons b rest ih =>
      by_cases hb : b = 0
      · subst hb
        have h' : ∃ x ∈ rest, x ≠ 0 := by
          obtain ⟨c, hc, hcne⟩ := h
          rcases List.mem_cons.mp hc with rfl | hmem
          · exact absurd rfl hcne
          · exact ⟨c, hmem, hcne⟩
        obtain ⟨h1, h2⟩ := ih h'
        refine ⟨?_, ?_⟩
        · simpa [_advance_to_first_var] using h1
        · simpa using h2
      · refine ⟨?_, b, rest, ?_, hb⟩
        · simp [_advance_to_first_var, hb]
        · simp [hb]

/-- Witness for C9 at a concrete padded source. -/
theorem advance_stops_at_first_nonzero_witness :
    (∃ b ∈ [0, 0, 5, 1], b ≠ 0) ∧
    (_advance_to_first_var [0, 0, 5, 1] = some ([0, 0, 5, 1].dropWhile fun b => b == 0) ∧
     ∃ c cs, [0, 0, 5, 1].dropWhile (fun b => b == 0) = c :: cs ∧ c ≠ 0) :=
  ⟨by decide, advance_stops_at_first_nonzero [0, 0, 5, 1] (by decide)⟩

theorem read_arl_never_ok (bs : List ℕ) : exOk (read_arl bs) = false := by
  unfold read_arl
  simp only [dictPlusList]
  repeat' split
  all_goals rfl

/-- C1: on the synthetic well-formed archive the header phase succeeds, yet
`read_arl` raises `TypeError`: it executes `record_hdr += _read_data(...)`
with `record_hdr` bound to the file-header dictionary, and a Python `dict`
supports neither `+=` nor `+` with a `list`.  Consequently `read_arl`
returns normally on no input at all.  The docstring promises a list of
record headers instead. -/
theorem read_arl_record_hdr_concat_raises_type_error :
    (exOk (_read_arl_header sampleArl) = true ∧
     read_arl sampleArl = .error (.typeError "unsupported operand types for dict and list")) ∧
    (∀ bs : List ℕ, exOk (read_arl bs) = false) :=
  ⟨by refine ⟨by decide, by decide⟩, read_arl_never_ok⟩

/-- C6 counterexample: a file truncated in the middle of a record header
makes decoding raise builtin `ValueError` (from `int()` on a short field),
which is not the `ARLFormatException` class the claim's `FormatError`
denotes. -/
theorem truncated_file_value_error_counterexample :
    read_arl (sampleArl.take 177) = .error (.valueError "invalid literal for int with base 10") ∧
    errClass (.valueError "invalid literal for int with base 10") ≠ EClass.arlFormatException := by
  decide

/-- C6 amended: truncation mid-record-header raises `ValueError`; truncation
inside a record's packed data raises nothing in the data decoder (missing
bytes read as zero: the truncated synthetic archive still completes
`_read_data`, and `read_arl` then fails with the unrelated `TypeError` of
C1); and decoding never returns a partially filled document — `read_arl`
returns normally on no input whatsoever. -/
theorem truncation_raises_non_format_errors :
    (read_arl (sampleArl.take 177) = .error (.valueError "invalid literal for int with base 10") ∧
     exOk (_read_data [("TEMP", ⟨2, 2, 1, []⟩)] sampleLevels false
       (sBytes sampleRecHdr ++ [128, 200])) = true ∧
     read_arl (sampleArl.take 228) =
       .error (.typeError "unsupported operand types for dict and list")) ∧
    (∀ bs : List ℕ, exOk (read_arl bs) = false) :=
  ⟨by refine ⟨by decide, by decide, by decide⟩, read_arl_never_ok⟩

/-- C7 counterexample: with `ABCD` catalogued at both the first and the last
level (conflicting extents 1 vs `n_levels`), array allocation does not
raise: it silently lets the last level win and allocates extent 2. -/
theorem conflicting_extent_silent_precedence_counterexample :
    _make_empty_arrays_for_vars conflictLevels 1 1 2 = .ok [("ABCD", ⟨1, 1, 2, []⟩)] := by
  decide

theorem cellsLoop_preserve (is16 : Bool) (prec : ℚ) (sexp : ℤ) (j k x y z : ℕ) :
    ∀ (is : List ℕ) (arr : NpArray) (last : Option ℚ) (bs : List ℕ)
      (arr' : NpArray) (l' : Option ℚ) (bs' : List ℕ),
      (∀ i ∈ is, (x, y, z) ≠ (i, j, k)) →
      cellsLoop is16 prec sexp j k is arr last bs = .ok (arr', l', bs') →
      npGet arr' x y z = npGet arr x y z := by
  intro is
  induction is with
  | nil =>
      intro arr last bs arr' l' bs' _ h
      simp [cellsLoop] at h
      rw [h.1]
  | cons i is ih =>
      intro arr last bs arr' l' bs' hne h
      rcases hrv : _read_next_value is16 last prec sexp bs with ⟨v, bsA⟩
      rw [cellsLoop] at h
      simp only [hrv] at h
      cases hset : npSet arr i j k v with
      | error e => rw [hset] at h; cases h
      | ok arrA =>
          rw [hset] at h
          have h1 : npGet arr' x y z = npGet arrA x y z :=
            ih arrA v bsA arr' l' bs' (fun m hm => hne m (List.mem_cons_of_mem _ hm)) h
          have h2 : npGet arrA x y z = npGet arr x y z :=
            npGet_npSet_ne hset (hne i (List.mem_cons_self _ _))
          rw [h1, h2]

/-- C2: the row-reset law of `_read_data`.  For a row with at least one
column, the value stored at `(x = 0, y = j, z = k)` after the inner x-loop
is the row's first decoded value, and the y-loop seeds the next row with
exactly that stored value — not with the value carried out of the row's
last column. -/
theorem read_data_row_reset
    (is16 : Bool) (prec : ℚ) (sexp : ℤ) (j k : ℕ) (js : List ℕ)
    (arr : NpArray) (last : Option ℚ) (bs : List ℕ)
    (arr1 : NpArray) (l1 : Option ℚ) (bs1 : List ℕ)
    (h0 : 1 ≤ arr.shape0)
    (h : cellsLoop is16 prec sexp j k (List.range arr.shape0) arr last bs = .ok (arr1, l1, bs1)) :
    npGet arr1 0 j k = .ok (_read_next_value is16 last prec sexp bs).1 ∧
    rowsLoop is16 prec sexp k (j :: js) arr last bs =
      rowsLoop is16 prec sexp k js arr1 (_read_next_value is16 last prec sexp bs).1 bs1 := by
  have horig := h
  obtain ⟨n, hn⟩ : ∃ n, arr.shape0 = n + 1 := ⟨arr.shape0 - 1, by omega⟩
  rw [hn, List.range_succ_eq_map] at h
  rcases hrv : _read_next_value is16 last prec sexp bs with ⟨v, bsA⟩
  rw [cellsLoop] at h
  simp only [hrv] at h
  cases hset : npSet arr 0 j k v with
  | error e => rw [hset] at h; cases h
  | ok arrA =>
      rw [hset] at h
      have hpres : npGet arr1 0 j k = npGet arrA 0 j k := by
        refine cellsLoop_preserve is16 prec sexp j k 0 j k _ arrA v bsA arr1 l1 bs1 ?_ h
        intro m hm
        simp only [List.mem_map] at hm
        obtain ⟨m', _, rfl⟩ := hm
        simp
      have hget : npGet arr1 0 j k = .ok v := by
        rw [hpres, npGet_npSet_self hset]
      refine ⟨hget, ?_⟩
      rw [rowsLoop]
      simp [horig, hget]

/-- Witness for C2: a concrete first row (`[128, 130]`, previous value `1`,
`scale_exp 0`, zero precision) on a fresh 2 × 2 × 1 array.  The stored
`(0, 0, 0)` value is the row's first decoded value `129/128`, and the next
row is seeded with it — visibly not the last column's `33/32`. -/
theorem read_data_row_reset_witness :
    1 ≤ rowArr.shape0 ∧
    (npGet rowArr1 0 0 0 = .ok (_read_next_value false (some 1) 0 0 [128, 130, 1, 2]).1 ∧
     rowsLoop false 0 0 0 (0 :: [1]) rowArr (some 1) [128, 130, 1, 2] =
       rowsLoop false 0 0 0 [1] rowArr1 (_read_next_value false (some 1) 0 0 [128, 130, 1, 2]).1
         [1, 2]) := by
  have hv1 : _read_next_value false (some 1) 0 0 [128, 130, 1, 2] =
      (some (129 / 128), [130, 1, 2]) := by
    simp [_read_next_value, readByte, clampPrec]
    norm_num
  have hv2 : _read_next_value false (some (129 / 128)) 0 0 [130, 1, 2] =
      (some (33 / 32), [1, 2]) := by
    simp [_read_next_value, readByte, clampPrec]
    norm_num
  have hcells : cellsLoop false 0 0 0 0 (List.range rowArr.shape0) rowArr (some 1)
      [128, 130, 1, 2] = .ok (rowArr1, some (33 / 32), [1, 2]) := by
    have hr : List.range rowArr.shape0 = [0, 1] := by decide
    have hs1 : npSet rowArr 0 0 0 (some (129 / 128)) =
        .ok ⟨2, 2, 1, [((0, 0, 0), some (129 / 128))]⟩ := by
      simp [npSet, rowArr, alSet]
    have hs2 : npSet (⟨2, 2, 1, [((0, 0, 0), some (129 / 128))]⟩ : NpArray) 1 0 0
        (some (33 / 32)) = .ok rowArr1 := by
      simp [npSet, rowArr1, alSet]
      decide
    rw [hr]
    simp only [cellsLoop, hv1, hs1, hv2, hs2]
  exact ⟨by decide,
    read_data_row_reset false 0 0 0 0 [1] rowArr (some 1) [128, 130, 1, 2]
      rowArr1 (some (33 / 32)) [1, 2] (by decide) hcells⟩

/-- C5 (amended): whenever the 50-byte file header parses and its `kvar`
field is anything other than the string `INDX`, `_read_arl_header` raises
`ARLFormatException` with the old-style-file message, without any grid or
level parsing (the error is produced directly after the tag check).  There
is no separate `UnsupportedFormatError` class: `ARLFormatException` is the
same class the width-overflow `FormatError` condition uses. -/
theorem non_indx_tag_raises_arlformat (bs : List ℕ) (v : PyVal)
    (h1 : (_read_record_header bs).map (fun p => alGet? p.1 "kvar") = .ok (some v))
    (h2 : v ≠ PyVal.str "INDX") :
    _read_arl_header bs = .error (.arlFormat oldStyleMsg) := by
  cases hr : _read_record_header bs with
  | error e => rw [hr] at h1; cases h1
  | ok p =>
      obtain ⟨hdr, bs1⟩ := p
      rw [hr] at h1
      simp only [Except.map] at h1
      have hkv : alGet? hdr "kvar" = some v := by
        injection h1
      unfold _read_arl_header
      rw [hr]
      simp only [hkv]
      simp [h2]

/-- Witness for C5's amended theorem at a concrete `ABCD`-tagged header. -/
theorem non_indx_tag_raises_arlformat_witness :
    (_read_record_header (sBytes badTagHdr)).map (fun p => alGet? p.1 "kvar") =
      .ok (some (PyVal.str "ABCD")) ∧
    _read_arl_header (sBytes badTagHdr) = .error (.arlFormat oldStyleMsg) :=
  ⟨by decide,
   non_indx_tag_raises_arlformat (sBytes badTagHdr) (PyVal.str "ABCD") (by decide) (by decide)⟩

/-- C5 counterexample: the claim's "error type distinct from generic
FormatError" fails — the non-`INDX` tag error and the spec-exceeds-width
`FormatError` are instances of the same exception class
`ARLFormatException` (the module defines no other exception type). -/
theorem unsupported_tag_error_class_counterexample :
    _read_arl_header (sBytes badTagHdr) = .error (.arlFormat oldStyleMsg) ∧
    _read_header_info overSpec (some 5) false (sBytes "12abcd") = .error (.arlFormat overflowMsg) ∧
    errClass (.arlFormat oldStyleMsg) = errClass (.arlFormat overflowMsg) := by
  refine ⟨by decide, by decide, by decide⟩

theorem applyConv_not_bytes {c : Conv} {bs : List ℕ} {v : PyVal}
    (hc : c ≠ Conv.doNothing) (h : applyConv c bs = .ok v) : isBytesVal v = false := by
  cases c with
  | toInt =>
      cases hi : pyIntOfBytes bs with
      | error e => simp [applyConv, Except.map, hi] at h
      | ok i => simp [applyConv, Except.map, hi] at h; rw [← h]; rfl
  | toFloat =>
      cases hi : pyFloatOfBytes bs with
      | error e => simp [applyConv, Except.map, hi] at h
      | ok q => simp [applyConv, Except.map, hi] at h; rw [← h]; rfl
  | decodeBytes =>
      cases hi : pyDecodeAscii bs with
      | error e => simp [applyConv, Except.map, hi] at h
      | ok t => simp [applyConv, Except.map, hi] at h; rw [← h]; rfl
  | doNothing => exact absurd rfl hc

theorem dictNoBytes_alSet {d : PyDict} {k : String} {v : PyVal}
    (hd : dictNoBytes d = true) (hv : isBytesVal v = false) :
    dictNoBytes (alSet d k v) = true := by
  induction d with
  | nil => simp [alSet, dictNoBytes, hv]
  | cons p rest ih =>
      obtain ⟨k0, v0⟩ := p
      simp [dictNoBytes] at hd
      by_cases h0 : k0 = k
      · subst h0
        simp [alSet, dictNoBytes, hv]
        intro a b hab
        exact hd.2 a b hab
      · simp [alSet, dictNoBytes, h0, hd.1]
        have := ih (by simp [dictNoBytes]; intro a b hab; exact hd.2 a b hab)
        simp [dictNoBytes] at this
        exact this

theorem headerLoop_strict_noBytes :
    ∀ (spec : List FmtEntry) (tot : Option ℤ) (d : PyDict) (bs : List ℕ)
      (d' : PyDict) (tot' : Option ℤ) (bs' : List ℕ),
      (∀ e ∈ spec, e.1 = none ∨ e.2.2 ≠ Conv.doNothing) →
      dictNoBytes d = true →
      headerLoop false spec tot d bs = .ok (d', tot', bs') →
      dictNoBytes d' = true := by
  intro spec
  induction spec with
  | nil =>
      intro tot d bs d' tot' bs' _ hd h
      simp [headerLoop] at h
      rw [← h.1]
      exact hd
  | cons entry rest ih =>
      intro tot d bs d' tot' bs' hspec hd h
      obtain ⟨key, n, conv⟩ := entry
      have hrest : ∀ e ∈ rest, e.1 = none ∨ e.2.2 ≠ Conv.doNothing :=
        fun e he => hspec e (List.mem_cons_of_mem _ he)
      have hhead := hspec (key, n, conv) (List.mem_cons_self _ _)
      rw [headerLoop.eq_def] at h
      dsimp only at h
      cases tot with
      | none =>
          cases key with
          | none => exact ih none d (bs.drop n) d' tot' bs' hrest hd h
          | some k =>
              cases hac : applyConv conv (bs.take n) with
              | error e => simp [hac] at h
              | ok v =>
                  simp only [hac] at h
                  have hnb : isBytesVal v = false := by
                    refine applyConv_not_bytes ?_ hac
                    rcases hhead with hk | hc
                    · cases hk
                    · exact hc
                  exact ih none (alSet d k v) (bs.drop n) d' tot' bs' hrest
                    (dictNoBytes_alSet hd hnb) h
      | some t =>
          by_cases hov : t - n < 0
          · simp [hov] at h
          · simp only [hov, if_false] at h
            cases key with
            | none => exact ih (some (t - n)) d (bs.drop n) d' tot' bs' hrest hd h
            | some k =>
                cases hac : applyConv conv (bs.take n) with
                | error e => simp [hac] at h
                | ok v =>
                    simp only [hac] at h
                    have hnb : isBytesVal v = false := by
                      refine applyConv_not_bytes ?_ hac
                      rcases hhead with hk | hc
                      · cases hk
                      · exact hc
                    exact ih (some (t - n)) (alSet d k v) (bs.drop n) d' tot' bs' hrest
                      (dictNoBytes_alSet hd hnb) h

theorem read_header_info_noBytes (spec : List FmtEntry) (tot : Option ℤ) (bs : List ℕ)
    (hspec : ∀ e ∈ spec, e.1 = none ∨ e.2.2 ≠ Conv.doNothing) :
    hdrNoBytes (_read_header_info spec tot false bs) = true := by
  unfold _read_header_info
  cases hl : headerLoop false spec tot [] bs with
  | error e => simp [hdrNoBytes]
  | ok t =>
      obtain ⟨d, tot', bs'⟩ := t
      have hnb := headerLoop_strict_noBytes spec tot [] bs d tot' bs' hspec (by rfl) hl
      cases tot' with
      | none => simpa [hdrNoBytes] using hnb
      | some t' => simpa [hdrNoBytes] using hnb

theorem varHdrLoop_noBytes :
    ∀ (n : ℕ) (bs : List ℕ) (vs : List PyDict) (bs' : List ℕ),
      varHdrLoop n bs = .ok (vs, bs') → ∀ v ∈ vs, dictNoBytes v = true := by
  intro n
  induction n with
  | zero =>
      intro bs vs bs' h v hv
      simp [varHdrLoop] at h
      rw [h.1] at hv
      simp at hv
  | succ m ih =>
      intro bs vs bs' h v hv
      rw [varHdrLoop] at h
      cases hv1 : _read_variable_header bs with
      | error e => rw [hv1] at h; cases h
      | ok p =>
          obtain ⟨vh, bs1⟩ := p
          rw [hv1] at h
          dsimp only at h
          cases hv2 : varHdrLoop m bs1 with
          | error e => rw [hv2] at h; cases h
          | ok q =>
              obtain ⟨vrest, bs2⟩ := q
              rw [hv2] at h
              simp at h
              rw [← h.1] at hv
              rcases List.mem_cons.mp hv with rfl | hmem
              · have := read_header_info_noBytes _variable_header_format none bs (by decide)
                rw [show _read_header_info _variable_header_format none false bs =
                      _read_variable_header bs from rfl, hv1] at this
                simpa [hdrNoBytes] using this
              · exact ih bs1 vrest bs2 hv2 v hmem

theorem levelHdrLoop_noBytes :
    ∀ (n : ℕ) (bs : List ℕ) (lvls : List LevelInfo) (bs' : List ℕ),
      levelHdrLoop n bs = .ok (lvls, bs') →
      ∀ li ∈ lvls, dictNoBytes li.hdr = true ∧ ∀ v ∈ li.vars, dictNoBytes v = true := by
  intro n
  induction n with
  | zero =>
      intro bs lvls bs' h li hli
      simp [levelHdrLoop] at h
      rw [h.1] at hli
      simp at hli
  | succ m ih =>
      intro bs lvls bs' h li hli
      rw [levelHdrLoop] at h
      cases h1 : _read_level_header bs with
      | error e => rw [h1] at h; cases h
      | ok p =>
          obtain ⟨hdr, bs1⟩ := p
          rw [h1] at h
          dsimp only at h
          cases h2 : getInt hdr "n_var_at_level" with
          | error e => rw [h2] at h; cases h
          | ok nvars =>
              rw [h2] at h
              dsimp only at h
              cases h3 : varHdrLoop nvars.toNat bs1 with
              | error e => rw [h3] at h; cases h
              | ok q =>
                  obtain ⟨vars, bs2⟩ := q
                  rw [h3] at h
                  dsimp only at h
                  cases h4 : levelHdrLoop m bs2 with
                  | error e => rw [h4] at h; cases h
                  | ok r =>
                      obtain ⟨rest, bs3⟩ := r
                      rw [h4] at h
                      simp at h
                      rw [← h.1] at hli
                      rcases List.mem_cons.mp hli with rfl | hmem
                      · constructor
                        · have := read_header_info_noBytes _level_header_format none bs (by decide)
                          rw [show _read_header_info _level_header_format none false bs =
                                _read_level_header bs from rfl, h1] at this
                          simpa [hdrNoBytes] using this
                        · intro v hv
                          exact varHdrLoop_noBytes nvars.toNat bs1 vars bs2 h3 v hv
                      · exact ih bs2 rest bs3 h4 li hmem

theorem headerLoop_strict_fail :
    ∀ (spec : List FmtEntry) (tot : Option ℤ) (d : PyDict) (bs : List ℕ),
      specConvOk spec bs = false →
      exOk (headerLoop false spec tot d bs) = false := by
  intro spec
  induction spec with
  | nil => intro tot d bs hc; simp [specConvOk] at hc
  | cons entry rest ih =>
      intro tot d bs hc
      obtain ⟨key, n, conv⟩ := entry
      rw [specConvOk.eq_def] at hc
      dsimp only at hc
      rw [headerLoop.eq_def]
      dsimp only
      cases tot with
      | none =>
          cases key with
          | none =>
              simp only [Bool.true_and] at hc
              exact ih none d (bs.drop n) hc
          | some k =>
              cases hac : applyConv conv (bs.take n) with
              | error e => simp [hac, exOk]
              | ok v =>
                  simp only [hac, exOk] at hc ⊢
                  simp at hc
                  exact ih none (alSet d k v) (bs.drop n) hc
      | some t =>
          by_cases hov : t - n < 0
          · simp [hov, exOk]
          · simp only [hov, if_false]
            cases key with
            | none =>
                simp only [Bool.true_and] at hc
                exact ih (some (t - n)) d (bs.drop n) hc
            | some k =>
                cases hac : applyConv conv (bs.take n) with
                | error e => simp [hac, exOk]
                | ok v =>
                    simp only [hac, exOk] at hc ⊢
                    simp at hc
                    exact ih (some (t - n)) (alSet d k v) (bs.drop n) hc

/-- C10: `read_arl` decodes in strict conversion mode throughout.  The
record-header parser and the grid-header parser as `read_arl` invokes it
(the diagnostic `allow_failed_conversions` defaults to `false` and is never
set) record no raw-bytes fallback values, and neither does any level or
variable header of a successful header phase; and in strict mode a failed
field conversion always surfaces as an exception — `_read_header_info` with
the flag `false` cannot return normally when some named field fails to
convert. -/
theorem read_arl_strict_conversions :
    (∀ bs : List ℕ, hdrNoBytes (_read_record_header bs) = true) ∧
    (∀ bs : List ℕ, hdrNoBytes (_read_grid_header bs) = true) ∧
    (∀ bs : List ℕ, headerPhaseNoBytes (_read_arl_header bs) = true) ∧
    (∀ (spec : List FmtEntry) (tot : Option ℤ) (bs : List ℕ),
      specConvOk spec bs = false → exOk (_read_header_info spec tot false bs) = false) := by
  have hrec : ∀ bs : List ℕ, hdrNoBytes (_read_record_header bs) = true := fun bs =>
    read_header_info_noBytes _record_header_format (some 50) bs (by decide)
  have hgrid : ∀ bs : List ℕ, hdrNoBytes (_read_grid_header bs) = true := fun bs =>
    read_header_info_noBytes _grid_header_format (some 108) bs (by decide)
  refine ⟨hrec, hgrid, ?_, ?_⟩
  · intro bs
    unfold _read_arl_header
    cases hr : _read_record_header bs with
    | error e => simp [headerPhaseNoBytes]
    | ok p =>
        obtain ⟨fh, bs1⟩ := p
        dsimp only
        cases hk : alGet? fh "kvar" with
        | none => simp [hk, headerPhaseNoBytes]
        | some v =>
            by_cases hv : v = PyVal.str "INDX"
            · cases hg : _read_grid_header bs1 with
              | error e => simp [hk, hv, hg, headerPhaseNoBytes]
              | ok q =>
                  obtain ⟨gh, bs2⟩ := q
                  cases hn : getInt gh "n_levels" with
                  | error e => simp [hk, hv, hg, hn, headerPhaseNoBytes]
                  | ok nlev =>
                      cases hl : _read_level_info bs2 nlev with
                      | error e => simp [hk, hv, hg, hn, hl, headerPhaseNoBytes]
                      | ok r =>
                          obtain ⟨lvls, bs3⟩ := r
                          have h1 : dictNoBytes fh = true := by
                            have hx := hrec bs
                            rw [hr] at hx
                            simpa [hdrNoBytes] using hx
                          have h2 : dictNoBytes gh = true := by
                            have hx := hgrid bs1
                            rw [hg] at hx
                            simpa [hdrNoBytes] using hx
                          have h3 := levelHdrLoop_noBytes nlev.toNat bs2 lvls bs3 hl
                          simp [hk, hv, hg, hn, hl, headerPhaseNoBytes, h1, h2]
                          intro li hli
                          have h4 := h3 li hli
                          exact ⟨h4.1, fun w hw => h4.2 w hw⟩
            · simp [hk, hv, headerPhaseNoBytes]
  · intro spec tot bs hc
    unfold _read_header_info
    cases hl : headerLoop false spec tot [] bs with
    | error e => simp [exOk]
    | ok t =>
        have := headerLoop_strict_fail spec tot [] bs hc
        rw [hl] at this
        simp [exOk] at this

/-- Witness for C10's strict-failure conjunct on a concrete non-numeric
field. -/
theorem read_arl_strict_conversions_witness :
    specConvOk alignSpec (sBytes "XY") = false ∧
    exOk (_read_header_info alignSpec (some 5) false (sBytes "XY")) = false :=
  ⟨by decide,
   read_arl_strict_conversions.2.2.2 alignSpec (some 5) (sBytes "XY") (by decide)⟩

theorem getStr_ok {d : PyDict} {k s : String} (h : getStr d k = .ok s) :
    alGet? d k = some (PyVal.str s) := by
  cases hv : alGet? d k with
  | none => simp [getStr, hv] at h
  | some v =>
      cases v with
      | int i => simp [getStr, hv] at h
      | float q => simp [getStr, hv] at h
      | str t => simp [getStr, hv] at h; rw [h]
      | bytes b => simp [getStr, hv] at h

theorem dimsLoop_lookup (z : ℤ) :
    ∀ (vs : List PyDict) (d d' : List (String × ℤ)),
      dimsLoop z vs d = .ok d' →
      ∀ name : String,
        (name ∈ catalogNames vs → alGet? d' name = some z) ∧
        (name ∉ catalogNames vs → alGet? d' name = alGet? d name) := by
  intro vs
  induction vs with
  | nil =>
      intro d d' h name
      simp [dimsLoop] at h
      subst h
      simp [catalogNames]
  | cons v vs ih =>
      intro d d' h name
      rw [dimsLoop] at h
      cases hg : getStr v "variable_name" with
      | error e => rw [hg] at h; cases h
      | ok n0 =>
          rw [hg] at h
          dsimp only at h
          have hv := getStr_ok hg
          have hcat : catalogNames (v :: vs) = n0 :: catalogNames vs := by
            simp [catalogNames, hv]
          rw [hcat]
          constructor
          · intro hmem
            rcases List.mem_cons.mp hmem with rfl | hmem'
            · by_cases h2 : name ∈ catalogNames vs
              · exact (ih _ _ h name).1 h2
              · rw [(ih _ _ h name).2 h2, alGet_alSet_self]
            · exact (ih _ _ h name).1 hmem'
          · intro hmem
            have hne : name ≠ n0 := fun he => hmem (he ▸ List.mem_cons_self _ _)
            have hnm : name ∉ catalogNames vs := fun hm => hmem (List.mem_cons_of_mem _ hm)
            rw [(ih _ _ h name).2 hnm, alGet_alSet_ne _ _ _ _ hne]

theorem mem_keys_alSet {κ α : Type} [DecidableEq κ] (l : List (κ × α)) (k x : κ) (v : α) :
    x ∈ keysOf (alSet l k v) ↔ x = k ∨ x ∈ keysOf l := by
  induction l with
  | nil => simp [alSet, keysOf]
  | cons p rest ih =>
      obtain ⟨k0, v0⟩ := p
      by_cases h0 : k0 = k
      · subst h0
        rw [show alSet ((k0, v0) :: rest) k0 v = (k0, v) :: rest from by simp [alSet]]
        rw [show keysOf ((k0, v) :: rest) = k0 :: keysOf rest from rfl,
            show keysOf ((k0, v0) :: rest) = k0 :: keysOf rest from rfl]
        simp only [List.mem_cons]
        tauto
      · rw [show alSet ((k0, v0) :: rest) k v = (k0, v0) :: alSet rest k v from by
            simp [alSet, h0]]
        rw [show keysOf ((k0, v0) :: alSet rest k v) = k0 :: keysOf (alSet rest k v) from rfl,
            show keysOf ((k0, v0) :: rest) = k0 :: keysOf rest from rfl]
        simp only [List.mem_cons, ih]
        tauto

theorem nodup_keys_alSet {κ α : Type} [DecidableEq κ] (l : List (κ × α)) (k : κ) (v : α)
    (h : (keysOf l).Nodup) : (keysOf (alSet l k v)).Nodup := by
  induction l with
  | nil => simp [alSet, keysOf]
  | cons p rest ih =>
      obtain ⟨k0, v0⟩ := p
      rw [show keysOf ((k0, v0) :: rest) = k0 :: keysOf rest from rfl, List.nodup_cons] at h
      by_cases h0 : k0 = k
      · subst h0
        rw [show alSet ((k0, v0) :: rest) k0 v = (k0, v) :: rest from by simp [alSet]]
        rw [show keysOf ((k0, v) :: rest) = k0 :: keysOf rest from rfl, List.nodup_cons]
        exact h
      · rw [show alSet ((k0, v0) :: rest) k v = (k0, v0) :: alSet rest k v from by
            simp [alSet, h0]]
        rw [show keysOf ((k0, v0) :: alSet rest k v) = k0 :: keysOf (alSet rest k v) from rfl,
          List.nodup_cons]
        refine ⟨?_, ih h.2⟩
        intro hmem
        rcases (mem_keys_alSet rest k k0 v).mp hmem with rfl | hm
        · exact h0 rfl
        · exact h.1 hm

theorem dimsLoop_nodup (z : ℤ) :
    ∀ (vs : List PyDict) (d d' : List (String × ℤ)),
      dimsLoop z vs d = .ok d' → (keysOf d).Nodup → (keysOf d').Nodup := by
  intro vs
  induction vs with
  | nil =>
      intro d d' h hd
      simp [dimsLoop] at h
      subst h
      exact hd
  | cons v vs ih =>
      intro d d' h hd
      rw [dimsLoop] at h
      cases hg : getStr v "variable_name" with
      | error e => rw [hg] at h; cases h
      | ok n0 =>
          rw [hg] at h
          dsimp only at h
          exact ih _ _ h (nodup_keys_alSet d n0 z hd)

theorem alGet_eq_none_iff {κ α : Type} [DecidableEq κ] (l : List (κ × α)) (k : κ) :
    alGet? l k = none ↔ k ∉ keysOf l := by
  induction l with
  | nil => simp [alGet?, keysOf]
  | cons p rest ih =>
      obtain ⟨k0, v0⟩ := p
      by_cases h0 : k0 = k
      · subst h0
        simp [alGet?, keysOf]
      · simp [alGet?, keysOf, h0, ih]
        tauto

theorem npFull_ok_elim {nx ny nz : ℤ} {a : NpArray} (h : npFull nx ny nz = .ok a) :
    a = ⟨nx.toNat, ny.toNat, nz.toNat, []⟩ := by
  unfold npFull at h
  split at h
  · cases h
  · injection h with h'
    exact h'.symm

theorem arraysLoop_preserve (nx ny : ℤ) :
    ∀ (dims : List (String × ℤ)) (arrs arrs' : List (String × NpArray)),
      arraysLoop nx ny dims arrs = .ok arrs' →
      ∀ name, name ∉ keysOf dims → alGet? arrs' name = alGet? arrs name := by
  intro dims
  induction dims with
  | nil =>
      intro arrs arrs' h name _
      simp [arraysLoop] at h
      rw [h]
  | cons p rest ih =>
      obtain ⟨n0, z0⟩ := p
      intro arrs arrs' h name hnm
      rw [arraysLoop] at h
      cases hf : npFull nx ny z0 with
      | error e => rw [hf] at h; cases h
      | ok a =>
          rw [hf] at h
          dsimp only at h
          have hne : name ≠ n0 := by
            intro he
            exact hnm (by simp [keysOf, he])
          have hnm' : name ∉ keysOf rest := by
            intro hm
            exact hnm (by simp [keysOf] at hm ⊢; exact Or.inr hm)
          rw [ih _ _ h name hnm', alGet_alSet_ne _ _ _ _ hne]

theorem arraysLoop_lookup (nx ny : ℤ) :
    ∀ (dims : List (String × ℤ)) (arrs arrs' : List (String × NpArray)),
      arraysLoop nx ny dims arrs = .ok arrs' →
      (keysOf dims).Nodup →
      ∀ (name : String) (z : ℤ), alGet? dims name = some z →
        alGet? arrs' name = some ⟨nx.toNat, ny.toNat, z.toNat, []⟩ := by
  intro dims
  induction dims with
  | nil =>
      intro arrs arrs' h _ name z hz
      simp [alGet?] at hz
  | cons p rest ih =>
      obtain ⟨n0, z0⟩ := p
      intro arrs arrs' h hnd name z hz
      rw [arraysLoop] at h
      cases hf : npFull nx ny z0 with
      | error e => rw [hf] at h; cases h
      | ok a =>
          rw [hf] at h
          dsimp only at h
          simp [keysOf, List.nodup_cons] at hnd
          by_cases hne : n0 = name
          · subst hne
            rw [show alGet? ((n0, z0) :: rest) n0 = some z0 by simp [alGet?]] at hz
            injection hz with hz'
            subst hz'
            rw [arraysLoop_preserve nx ny rest _ _ h n0 (by simpa [keysOf] using hnd.1)]
            rw [alGet_alSet_self, npFull_ok_elim hf]
          · rw [show alGet? ((n0, z0) :: rest) name = alGet? rest name by simp [alGet?, hne]] at hz
            exact ih _ _ h (by simpa [keysOf] using hnd.2) name z hz

theorem make_empty_arrays_spec
    (lhs : List LevelInfo) (nx ny nz : ℤ) (arrs : List (String × NpArray))
    (lh0 lhL : LevelInfo)
    (hhead : lhs.head? = some lh0) (hlast : lhs.getLast? = some lhL)
    (h : _make_empty_arrays_for_vars lhs nx ny nz = .ok arrs) (name : String) :
    (name ∈ catalogNames lhL.vars →
       alGet? arrs name = some ⟨nx.toNat, ny.toNat, nz.toNat, []⟩) ∧
    (name ∈ catalogNames lh0.vars → name ∉ catalogNames lhL.vars →
       alGet? arrs name = some ⟨nx.toNat, ny.toNat, 1, []⟩) ∧
    (name ∉ catalogNames lh0.vars → name ∉ catalogNames lhL.vars →
       alGet? arrs name = none) := by
  cases lhs with
  | nil => cases hhead
  | cons l0 rest =>
      have hl0 : l0 = lh0 := by simpa using hhead
      subst hl0
      have hlastD : (l0 :: rest).getLastD l0 = lhL := by
        rw [List.getLastD_eq_getLast?, hlast]
        rfl
      rw [_make_empty_arrays_for_vars.eq_def] at h
      dsimp only at h
      rw [hlastD] at h
      cases h0 : dimsLoop 1 l0.vars [] with
      | error e => rw [h0] at h; cases h
      | ok dims0 =>
          rw [h0] at h
          dsimp only at h
          cases h1 : dimsLoop nz lhL.vars dims0 with
          | error e => rw [h1] at h; cases h
          | ok dims =>
              rw [h1] at h
              dsimp only at h
              have hnd : (keysOf dims).Nodup :=
                dimsLoop_nodup nz lhL.vars dims0 dims h1
                  (dimsLoop_nodup 1 l0.vars [] dims0 h0 (by simp [keysOf]))
              have spec0 := dimsLoop_lookup 1 l0.vars [] dims0 h0 name
              have specL := dimsLoop_lookup nz lhL.vars dims0 dims h1 name
              refine ⟨?_, ?_, ?_⟩
              · intro hmem
                have hz : alGet? dims name = some nz := specL.1 hmem
                exact arraysLoop_lookup nx ny dims [] arrs h hnd name nz hz
              · intro hmem0 hmemL
                have hz : alGet? dims name = some 1 := by
                  rw [specL.2 hmemL]
                  exact spec0.1 hmem0
                have := arraysLoop_lookup nx ny dims [] arrs h hnd name 1 hz
                simpa using this
              · intro hmem0 hmemL
                have hz : alGet? dims name = none := by
                  rw [specL.2 hmemL, spec0.2 hmem0]
                  rfl
                rw [arraysLoop_preserve nx ny dims [] arrs h name
                    ((alGet_eq_none_iff dims name).mp hz)]
                rfl

/-- C4: array extents and the destination z-index.  A variable catalogued
only at level 0 is allocated a `(nx, ny, 1)` array and one catalogued only
at the last level a `(nx, ny, n_levels)` array (all cells `nan`-filled:
the cell list is empty); and the z-index used by `_read_data` is `0` for
level index 0 and `klev - 1` for every `klev ≥ 1`. -/
theorem alloc_extents_and_z_index :
    (kOf 0 = 0 ∧ ∀ klev : ℕ, 1 ≤ klev → kOf klev = klev - 1) ∧
    (∀ (lhs : List LevelInfo) (nx ny nz : ℤ) (arrs : List (String × NpArray))
       (lh0 lhL : LevelInfo) (name : String),
       lhs.head? = some lh0 → lhs.getLast? = some lhL →
       _make_empty_arrays_for_vars lhs nx ny nz = .ok arrs →
       ((name ∈ catalogNames lh0.vars → name ∉ catalogNames lhL.vars →
           alGet? arrs name = some ⟨nx.toNat, ny.toNat, 1, []⟩) ∧
        (name ∈ catalogNames lhL.vars → name ∉ catalogNames lh0.vars →
           alGet? arrs name = some ⟨nx.toNat, ny.toNat, nz.toNat, []⟩))) := by
  constructor
  · constructor
    · rfl
    · intro klev h1
      unfold kOf
      have : ¬klev = 0 := by omega
      simp [this]
  · intro lhs nx ny nz arrs lh0 lhL name hhead hlast h
    have spec := make_empty_arrays_spec lhs nx ny nz arrs lh0 lhL hhead hlast h name
    exact ⟨fun h0 hL => (spec.2.1) h0 hL, fun hL h0 => spec.1 hL⟩

/-- Witness for C4: `PRSS` only at the surface level gets extent 1, `TEMP`
only at the last level gets extent `n_levels = 2`, on a 3 × 4 grid. -/
theorem alloc_extents_and_z_index_witness :
    (1 ≤ 3 ∧ kOf 3 = 3 - 1) ∧
    _make_empty_arrays_for_vars splitLevels 3 4 2 =
      .ok [("PRSS", ⟨3, 4, 1, []⟩), ("TEMP", ⟨3, 4, 2, []⟩)] ∧
    alGet? [("PRSS", (⟨3, 4, 1, []⟩ : NpArray)), ("TEMP", ⟨3, 4, 2, []⟩)] "PRSS" =
      some ⟨3, 4, 1, []⟩ ∧
    alGet? [("PRSS", (⟨3, 4, 1, []⟩ : NpArray)), ("TEMP", ⟨3, 4, 2, []⟩)] "TEMP" =
      some ⟨3, 4, 2, []⟩ :=
  ⟨⟨by decide, alloc_extents_and_z_index.1.2 3 (by decide)⟩,
   by decide,
   ((alloc_extents_and_z_index.2 splitLevels 3 4 2
      [("PRSS", ⟨3, 4, 1, []⟩), ("TEMP", ⟨3, 4, 2, []⟩)]
      (mkLevel [varEntry "PRSS"]) (mkLevel [varEntry "TEMP"]) "PRSS"
      (by decide) (by decide) (by decide)).1 (by decide) (by decide)),
   ((alloc_extents_and_z_index.2 splitLevels 3 4 2
      [("PRSS", ⟨3, 4, 1, []⟩), ("TEMP", ⟨3, 4, 2, []⟩)]
      (mkLevel [varEntry "PRSS"]) (mkLevel [varEntry "TEMP"]) "TEMP"
      (by decide) (by decide) (by decide)).2 (by decide) (by decide))⟩

/-- C7 (amended): array allocation does not raise on an ambiguous catalog.
A variable in the last level's catalog gets extent `n_levels` even when it
is also in level 0's catalog (silent last-level precedence), and a variable
in neither the first nor the last catalog silently gets no array at all
(the data decoder would later raise `KeyError` on it). -/
theorem alloc_last_level_precedence_and_missing :
    ∀ (lhs : List LevelInfo) (nx ny nz : ℤ) (arrs : List (String × NpArray))
      (lh0 lhL : LevelInfo) (name : String),
      lhs.head? = some lh0 → lhs.getLast? = some lhL →
      _make_empty_arrays_for_vars lhs nx ny nz = .ok arrs →
      ((name ∈ catalogNames lhL.vars →
          alGet? arrs name = some ⟨nx.toNat, ny.toNat, nz.toNat, []⟩) ∧
       (name ∉ catalogNames lh0.vars → name ∉ catalogNames lhL.vars →
          alGet? arrs name = none)) := by
  intro lhs nx ny nz arrs lh0 lhL name hhead hlast h
  have spec := make_empty_arrays_spec lhs nx ny nz arrs lh0 lhL hhead hlast h name
  exact ⟨spec.1, spec.2.2⟩

/-- Witness for C7's amended theorem: `AAAA` is in both the first and last
catalogs of `middleOnlyLevels` and still gets extent `n_levels = 3` without
an error; `BBBB` sits only in the middle level and gets no array. -/
theorem alloc_last_level_precedence_and_missing_witness :
    _make_empty_arrays_for_vars middleOnlyLevels 1 1 3 = .ok [("AAAA", ⟨1, 1, 3, []⟩)] ∧
    alGet? [("AAAA", (⟨1, 1, 3, []⟩ : NpArray))] "AAAA" = some ⟨1, 1, 3, []⟩ ∧
    alGet? [("AAAA", (⟨1, 1, 3, []⟩ : NpArray))] "BBBB" = none :=
  ⟨by decide,
   ((alloc_last_level_precedence_and_missing middleOnlyLevels 1 1 3
      [("AAAA", ⟨1, 1, 3, []⟩)] (mkLevel [varEntry "AAAA"]) (mkLevel [varEntry "AAAA"])
      "AAAA" (by decide) (by decide) (by decide)).1 (by decide)),
   ((alloc_last_level_precedence_and_missing middleOnlyLevels 1 1 3
      [("AAAA", ⟨1, 1, 3, []⟩)] (mkLevel [varEntry "AAAA"]) (mkLevel [varEntry "AAAA"])
      "BBBB" (by decide) (by decide) (by decide)).2 (by decide) (by decide))⟩

theorem specConvOk_cons {key : Option String} {n : ℕ} {conv : Conv} {rest : List FmtEntry}
    {bs : List ℕ} (h : specConvOk ((key, n, conv) :: rest) bs = true) :
    (∀ k, key = some k → exOk (applyConv conv (bs.take n)) = true) ∧
      specConvOk rest (bs.drop n) = true := by
  rw [specConvOk.eq_def] at h
  dsimp only at h
  cases key with
  | none => simpa using h
  | some k =>
      simp only [Bool.and_eq_true] at h
      exact ⟨fun k' hk => by injection hk with hk'; exact h.1, h.2⟩

theorem headerLoop_overflow (af : Bool) :
    ∀ (spec : List FmtEntry) (t : ℤ) (d : PyDict) (bs : List ℕ),
      0 ≤ t → t < (sumWidths spec : ℤ) → specConvOk spec bs = true →
      headerLoop af spec (some t) d bs = .error (.arlFormat overflowMsg) := by
  intro spec
  induction spec with
  | nil =>
      intro t d bs h0 hlt _
      simp [sumWidths] at hlt
      omega
  | cons entry rest ih =>
      intro t d bs h0 hlt hc
      obtain ⟨key, n, conv⟩ := entry
      have hsum : (sumWidths ((key, n, conv) :: rest) : ℤ) = (n : ℤ) + (sumWidths rest : ℤ) := by
        simp [sumWidths]
      obtain ⟨hconv, hrest⟩ := specConvOk_cons hc
      rw [headerLoop.eq_def]
      dsimp only
      by_cases hov : t - n < 0
      · simp [hov]
      · simp only [hov, if_false]
        have h0' : (0 : ℤ) ≤ t - n := by omega
        have hlt' : t - n < (sumWidths rest : ℤ) := by omega
        cases key with
        | none => exact ih (t - n) d (bs.drop n) h0' hlt' hrest
        | some k =>
            obtain ⟨v, hv⟩ := exOk_eq_true (hconv k rfl)
            rw [hv]
            dsimp only
            exact ih (t - n) (alSet d k v) (bs.drop n) h0' hlt' hrest

theorem headerLoop_aligned (af : Bool) :
    ∀ (spec : List FmtEntry) (t : ℤ) (d : PyDict) (bs : List ℕ),
      (sumWidths spec : ℤ) ≤ t → specConvOk spec bs = true →
      ∃ d', headerLoop af spec (some t) d bs =
        .ok (d', some (t - (sumWidths spec : ℤ)), bs.drop (sumWidths spec)) := by
  intro spec
  induction spec with
  | nil =>
      intro t d bs _ _
      exact ⟨d, by simp [headerLoop, sumWidths]⟩
  | cons entry rest ih =>
      intro t d bs hle hc
      obtain ⟨key, n, conv⟩ := entry
      have hsum : sumWidths ((key, n, conv) :: rest) = n + sumWidths rest := by
        simp [sumWidths]
      rw [hsum] at hle ⊢
      obtain ⟨hconv, hrest⟩ := specConvOk_cons hc
      have hov : ¬(t - n < 0) := by
        push_cast at hle
        omega
      have hle' : (sumWidths rest : ℤ) ≤ t - n := by
        push_cast at hle
        omega
      rw [headerLoop.eq_def]
      dsimp only
      simp only [hov, if_false]
      have hdrop : ∀ d' : PyDict,
          (.ok (d', some ((t - n) - (sumWidths rest : ℤ)), (bs.drop n).drop (sumWidths rest)) :
              Except PErr (PyDict × Option ℤ × List ℕ)) =
            .ok (d', some (t - ((n + sumWidths rest : ℕ) : ℤ)), bs.drop (n + sumWidths rest)) := by
        intro d'
        rw [List.drop_drop]
        have e1 : (t - n) - (sumWidths rest : ℤ) = t - ((n + sumWidths rest : ℕ) : ℤ) := by
          push_cast
          ring
        rw [e1]
      cases key with
      | none =>
          obtain ⟨d', hd'⟩ := ih (t - n) d (bs.drop n) hle' hrest
          exact ⟨d', by rw [hd', hdrop d']⟩
      | some k =>
          obtain ⟨v, hv⟩ := exOk_eq_true (hconv k rfl)
          obtain ⟨d', hd'⟩ := ih (t - n) (alSet d k v) (bs.drop n) hle' hrest
          refine ⟨d', ?_⟩
          rw [hv]
          dsimp only
          rw [hd', hdrop d']

/-- C8: header-width accounting in `_read_header_info`.  When the format
table's widths sum to more than the declared total (and the attempted
conversions succeed, so no `ValueError` pre-empts the check), the parse
raises the `ARLFormatException` overflow error; otherwise the parse
consumes exactly the declared total — the remaining source is `bs.drop
t.toNat` — with the shortfall after the table's entries read and
discarded. -/
theorem header_width_overflow_and_alignment :
    (∀ (spec : List FmtEntry) (t : ℤ) (af : Bool) (bs : List ℕ),
       0 ≤ t → t < (sumWidths spec : ℤ) → specConvOk spec bs = true →
       _read_header_info spec (some t) af bs = .error (.arlFormat overflowMsg)) ∧
    (∀ (spec : List FmtEntry) (t : ℤ) (af : Bool) (bs : List ℕ),
       (sumWidths spec : ℤ) ≤ t → specConvOk spec bs = true →
       ∃ d, _read_header_info spec (some t) af bs = .ok (d, bs.drop t.toNat)) := by
  constructor
  · intro spec t af bs h0 hlt hc
    unfold _read_header_info
    rw [headerLoop_overflow af spec t [] bs h0 hlt hc]
  · intro spec t af bs hle hc
    obtain ⟨d, hd⟩ := headerLoop_aligned af spec t [] bs hle hc
    refine ⟨d, ?_⟩
    unfold _read_header_info
    rw [hd]
    dsimp only
    have h0 : (0 : ℤ) ≤ (sumWidths spec : ℤ) := by positivity
    have : (bs.drop (sumWidths spec)).drop (t - (sumWidths spec : ℤ)).toNat =
        bs.drop t.toNat := by
      rw [List.drop_drop]
      congr 1
      omega
    rw [this]

/-- Witness for C8: both branches at concrete tables — `overSpec` (6 bytes
asked, 5 declared) overflows; `alignSpec` (2 bytes asked, 5 declared) reads
and discards 3 bytes to end exactly at the 5-byte boundary. -/
theorem header_width_overflow_and_alignment_witness :
    ((0 : ℤ) ≤ 5 ∧ (5 : ℤ) < (sumWidths overSpec : ℤ) ∧
      specConvOk overSpec (sBytes "12abcd") = true ∧
      _read_header_info overSpec (some 5) true (sBytes "12abcd") =
        .error (.arlFormat overflowMsg)) ∧
    ((sumWidths alignSpec : ℤ) ≤ 5 ∧ specConvOk alignSpec (sBytes "12abcde") = true ∧
      ∃ d, _read_header_info alignSpec (some 5) false (sBytes "12abcde") =
        .ok (d, (sBytes "12abcde").drop (5 : ℤ).toNat)) :=
  ⟨⟨by decide, by decide, by decide,
    header_width_overflow_and_alignment.1 overSpec 5 true (sBytes "12abcd")
      (by decide) (by decide) (by decide)⟩,
   ⟨by decide, by decide,
    header_width_overflow_and_alignment.2 alignSpec 5 false (sBytes "12abcde")
      (by decide) (by decide)⟩⟩
